import Mathlib

set_option linter.unusedSectionVars false

/-!
# Verification of `autogluon_zeroshot/simulation/config_generator.py`

A shallow embedding of the zero-shot portfolio selection code:

* `ZeroshotConfigGenerator._select_sequential` / `_select_ray` — one greedy
  forward-selection step, evaluated sequentially or via parallel ray tasks;
* `ZeroshotConfigGenerator.select_zeroshot_configs` — the forward-selection
  loop, with the optional pruning stage;
* `ZeroshotConfigGenerator.prune_zeroshot_configs` — backward pruning;
* `ZeroshotConfigGeneratorCV` — the k-fold cross-validation driver.

Configuration identifiers are modelled by an arbitrary type `α` with
decidable equality (the source uses strings).  Scores (Python floats
returned by `config_scorer.score`) are modelled by `ℚ`.  The Python value
`None`, which `_select_sequential` returns through the initialisation of
`best_next_config` whenever no candidate scores strictly below the sentinel,
is modelled by `Option α`: the portfolio list maintained by
`select_zeroshot_configs` has type `List (Option α)`, where `some c` is a
real configuration and `none` is Python's `None`.  Both selection backends
share the score function `g c = scorer(prior + [c])`, exactly as in the
source, so the selector bodies are stated over `g` and instantiated at the
two call sites (the standalone `_select_sequential`/`_select_ray` signature
with string lists, and the forward loop where `prior` is the mixed
portfolio).
-/

namespace AGZeroshot

variable {α : Type} [DecidableEq α] {β : Type} [DecidableEq β]

/-- The initial value of `best_score` in `_select_sequential`
(`config_generator.py`, line 78): the magic sentinel `999999999`. -/
def sentinelScore : ℚ := 999999999

/-- The `for config in configs` loop of
`ZeroshotConfigGenerator._select_sequential` (lines 79–84), carrying the
mutable `(best_next_config, best_score)` pair; `g c` is the score
`config_scorer.score(prior_configs + [config])`. -/
def selectScan (g : α → ℚ) : List α → Option α → ℚ → Option α × ℚ
  | [], best, bestScore => (best, bestScore)
  | c :: cs, best, bestScore =>
    if g c < bestScore then selectScan g cs (some c) (g c)
    else selectScan g cs best bestScore

/-- `ZeroshotConfigGenerator._select_sequential` (lines 74–85): the
`(best_next_config, best_score)` pair, starting from `(None, 999999999)`. -/
def selectSequential (configs priorConfigs : List α) (scorer : List α → ℚ) :
    Option α × ℚ :=
  selectScan (fun c => scorer (priorConfigs ++ [c])) configs none sentinelScore

/-- Python's builtin `min` on a list of scores: `none` on the empty list
(where Python raises `ValueError`), otherwise the least element, computed by
folding binary `min` over the list. -/
def pyMin : List ℚ → Option ℚ
  | [] => none
  | x :: xs => some (xs.foldl min x)

/-- The body of `ZeroshotConfigGenerator._select_ray` (lines 87–101) over the
score function `g`: score every candidate (one ray task per candidate, results
gathered in submission order), take `result.index(min(result))` and return the
candidate at that index together with the minimum.  `none` models the
`ValueError` Python's `min` raises on an empty candidate list. -/
def rayArgmin (g : α → ℚ) (configs : List α) : Option (α × ℚ) :=
  let result := configs.map g
  match pyMin result with
  | none => none
  | some m => (configs.get? (result.indexOf m)).map fun c => (c, m)

/-- `ZeroshotConfigGenerator._select_ray` (lines 87–101). -/
def selectRay (configs priorConfigs : List α) (scorer : List α → ℚ) :
    Option (α × ℚ) :=
  rayArgmin (fun c => scorer (priorConfigs ++ [c])) configs

/-- `w` is the first score-minimising element of `cs`: it weakly beats every
element of `cs`, and strictly beats everything before it. -/
def IsFirstMin (g : α → ℚ) (cs : List α) (w : α) : Prop :=
  (∀ c ∈ cs, g w ≤ g c) ∧ ∃ l₁ l₂, cs = l₁ ++ w :: l₂ ∧ ∀ c ∈ l₁, g w < g c

/-- The `backend` attribute of `ZeroshotConfigGenerator` (line 24). -/
inductive Backend : Type
  | ray : Backend
  | sequential : Backend

/-- `valid_configs = [c for c in self.all_configs if c not in zeroshot_configs]`
(line 52); the portfolio may contain Python `None`, the pool never does. -/
def validConfigs (allConfigs : List α) (zs : List (Option α)) : List α :=
  allConfigs.filter fun c => ¬ (some c ∈ zs)

/-- The value `best_next_config` appended at line 61: the result of the
selector chosen at lines 39–46, scoring `zeroshot_configs + [config]`.
In ray mode the selector always returns a candidate when any exists (the
`none` arm is unreachable from the loop, which breaks on an empty candidate
list before calling the selector). -/
def loopStep (backend : Backend) (scorer : List (Option α) → ℚ)
    (allConfigs : List α) (zs : List (Option α)) : Option α :=
  match backend with
  | .sequential =>
      (selectScan (fun c => scorer (zs ++ [some c]))
        (validConfigs allConfigs zs) none sentinelScore).1
  | .ray =>
      match rayArgmin (fun c => scorer (zs ++ [some c]))
          (validConfigs allConfigs zs) with
      | some (c, _) => some c
      | none => none

/-- The `while len(zeroshot_configs) < num_zeroshot` loop (lines 47–67): each
iteration either breaks on an empty candidate list or appends the selector's
pick, growing the portfolio by exactly one element; `fuel` is the number of
appends still allowed, i.e. `num_zeroshot - len(zeroshot_configs)`. -/
def selectLoop (backend : Backend) (scorer : List (Option α) → ℚ)
    (allConfigs : List α) : ℕ → List (Option α) → List (Option α)
  | 0, zs => zs
  | fuel + 1, zs =>
    if (validConfigs allConfigs zs).isEmpty then zs
    else selectLoop backend scorer allConfigs fuel
      (zs ++ [loopStep backend scorer allConfigs zs])

/-- Number of `config_scorer.score` calls made by the forward-selection loop:
each non-breaking iteration scores every remaining candidate once (lines
79–81 sequentially, lines 91–96 as one ray task each). -/
def selectLoopScoreCalls (backend : Backend) (scorer : List (Option α) → ℚ)
    (allConfigs : List α) : ℕ → List (Option α) → ℕ
  | 0, _ => 0
  | fuel + 1, zs =>
    if (validConfigs allConfigs zs).isEmpty then 0
    else (validConfigs allConfigs zs).length +
      selectLoopScoreCalls backend scorer allConfigs fuel
        (zs ++ [loopStep backend scorer allConfigs zs])

/-- The `for config in zeroshot_configs` scan of one pruning round
(lines 109–120), carrying `(best_remove_config, best_score)`.  The first
acceptance compares against `best_score + removal_threshold`, every later
one against the running `best_score`.  The scored list
`[c for c in zeroshot_configs if c != config]` drops every copy of the
candidate. -/
def pruneScan (scorer : List β → ℚ) (removalThreshold : ℚ) (zs : List β) :
    List β → Option β → ℚ → Option β × ℚ
  | [], best, bestScore => (best, bestScore)
  | c :: cs, best, bestScore =>
    match best with
    | none =>
      if scorer (zs.filter fun x => x ≠ c) ≤ bestScore + removalThreshold then
        pruneScan scorer removalThreshold zs cs (some c)
          (scorer (zs.filter fun x => x ≠ c))
      else pruneScan scorer removalThreshold zs cs none bestScore
    | some b =>
      if scorer (zs.filter fun x => x ≠ c) ≤ bestScore then
        pruneScan scorer removalThreshold zs cs (some c)
          (scorer (zs.filter fun x => x ≠ c))
      else pruneScan scorer removalThreshold zs cs (some b) bestScore

/-- The `while not finished_removal` loop of `prune_zeroshot_configs`
(lines 107–125): each round scans the portfolio; a found removal candidate is
deleted via `zeroshot_configs.remove(...)` (first occurrence, line 123) and
the carried `best_score` is its exclusion score; otherwise the loop finishes.
Each removing round shortens the list, so `length + 1` fuel always reaches
the `finished_removal` exit. -/
def pruneLoop (scorer : List β → ℚ) (removalThreshold : ℚ) :
    ℕ → List β → ℚ → List β
  | 0, zs, _ => zs
  | fuel + 1, zs, bestScore =>
    match pruneScan scorer removalThreshold zs zs none bestScore with
    | (some c, s) => pruneLoop scorer removalThreshold fuel (zs.erase c) s
    | (none, _) => zs

/-- `ZeroshotConfigGenerator.prune_zeroshot_configs` (lines 103–126): the
initial `best_score` is the score of the (deep-copied) input portfolio. -/
def prune_zeroshot_configs (scorer : List β → ℚ) (zs : List β)
    (removalThreshold : ℚ) : List β :=
  pruneLoop scorer removalThreshold (zs.length + 1) zs (scorer zs)

/-- `ZeroshotConfigGenerator.select_zeroshot_configs` (lines 26–72):
deep-copies the prior portfolio (`[]` for the Python default `None`), runs
the forward-selection loop, then the pruning stage if `removal_stage` is
set.  `num_zeroshot` is a Python `int`, hence `ℤ`. -/
def select_zeroshot_configs (backend : Backend)
    (scorer : List (Option α) → ℚ) (allConfigs : List α) (numZeroshot : ℤ)
    (zeroshotConfigs : List (Option α)) (removalStage : Bool)
    (removalThreshold : ℚ) : List (Option α) :=
  let zs := selectLoop backend scorer allConfigs
    (numZeroshot - zeroshotConfigs.length).toNat zeroshotConfigs
  if removalStage then prune_zeroshot_configs scorer zs removalThreshold
  else zs

/-! ## Cross-validation driver (`ZeroshotConfigGeneratorCV`)

Parent dataset identifiers (`tid` values) are natural numbers; dataset-fold
identifiers are an arbitrary type `δ`. -/

/-- `ZeroshotConfigGeneratorCV.__init__` (lines 150–163): the deduplicated,
sorted parent-dataset universe `self.unique_datasets`, obtained by mapping
every scorer dataset through `dataset_name_to_tid_dict`, collecting the set
and sorting it. -/
def uniqueDatasets {δ : Type} (datasetNameToTid : δ → ℕ) (datasets : List δ) :
    List ℕ :=
  ((datasets.map datasetNameToTid).dedup).mergeSort (· ≤ ·)

/-- Modelled from the spec: `sklearn.model_selection.KFold` is external
library code (not part of this repository).  Per the spec (§4.3, "partition
the sorted parent-dataset array into `n_splits` (≥ 2) folds using a seeded,
shuffled K-fold split"), fold `i` receives `n / k + 1` test indices when
`i < n % k` and `n / k` otherwise. -/
def kfoldSizes (n k : ℕ) : List ℕ :=
  (List.range k).map fun i => n / k + if i < n % k then 1 else 0

/-- Split a list into consecutive chunks of the given sizes. -/
def chunksOf : List ℕ → List ℕ → List (List ℕ)
  | [], _ => []
  | sz :: szs, l => l.take sz :: chunksOf szs (l.drop sz)

/-- Modelled from the spec: the test-index folds of
`KFold(n_splits, shuffle=True, random_state=0).split` — consecutive chunks
of the shuffled index sequence.  The seeded shuffle is modelled by a
permutation `perm` of `range n`; the fixed `random_state=0` means every run
uses the same permutation. -/
def kfoldTestFolds (k : ℕ) (perm : List ℕ) : List (List ℕ) :=
  chunksOf (kfoldSizes perm.length k) perm

/-- Modelled from the spec: the train indices of a fold are the indices of
`range n` outside the fold's test indices (ascending, as sklearn returns
them). -/
def kfoldTrainFold (n : ℕ) (test : List ℕ) : List ℕ :=
  (List.range n).filter fun i => ¬ i ∈ test

/-- `ZeroshotConfigGeneratorCV.run` (line 175): `X_train`/`X_test` are the
parent datasets of `self.unique_datasets` at the fold's index lists. -/
def XOfIndices (u : List ℕ) (idxs : List ℕ) : List ℕ :=
  idxs.filterMap u.get?

/-! ## Heap model for the frame claims

Python lists are mutable objects on a heap; `select_zeroshot_configs` and
`prune_zeroshot_configs` deep-copy their portfolio argument (lines 36 and
104) and mutate only the copy, and only read `self.all_configs`.  A heap is
a list of cells, a pointer its allocation index. -/

/-- A heap of Python list objects. -/
structure PyHeap (γ : Type) : Type where
  cells : List (List γ)

/-- Dereference a pointer. -/
def PyHeap.read {γ : Type} (h : PyHeap γ) (p : ℕ) : List γ :=
  h.cells.getD p []

/-- Allocate a fresh cell holding `v`, returning the new heap and pointer. -/
def PyHeap.alloc {γ : Type} (h : PyHeap γ) (v : List γ) : PyHeap γ × ℕ :=
  (⟨h.cells ++ [v]⟩, h.cells.length)

/-- Overwrite the cell at `p`. -/
def PyHeap.write {γ : Type} (h : PyHeap γ) (p : ℕ) (v : List γ) : PyHeap γ :=
  ⟨h.cells.set p v⟩

/-- The forward-selection loop acting on the heap: the pool cell (in the heap
`hp` of configuration lists) is read every iteration, the portfolio cell at
`zsPtr` (in the heap `hz` of portfolio lists) is the only cell written
(`zeroshot_configs.append`, line 61). -/
def selectLoopHeap (backend : Backend) (scorer : List (Option α) → ℚ) :
    ℕ → PyHeap α → ℕ → PyHeap (Option α) → ℕ → PyHeap α × PyHeap (Option α)
  | 0, hp, _, hz, _ => (hp, hz)
  | fuel + 1, hp, poolPtr, hz, zsPtr =>
    if (validConfigs (hp.read poolPtr) (hz.read zsPtr)).isEmpty then (hp, hz)
    else selectLoopHeap backend scorer fuel hp poolPtr
      (hz.write zsPtr (hz.read zsPtr ++
        [loopStep backend scorer (hp.read poolPtr) (hz.read zsPtr)]))
      zsPtr

/-- `select_zeroshot_configs` on the heap (forward phase): line 36 deep-copies
the caller's prior portfolio into a fresh cell, and the loop mutates only that
cell.  Returns both heaps and the pointer to the result list. -/
def select_zeroshot_configs_heap (backend : Backend)
    (scorer : List (Option α) → ℚ) (numZeroshot : ℤ) (hp : PyHeap α)
    (poolPtr : ℕ) (hz : PyHeap (Option α)) (priorPtr : ℕ) :
    PyHeap α × PyHeap (Option α) × ℕ :=
  let prior := hz.read priorPtr
  let allocated := hz.alloc prior
  let looped := selectLoopHeap backend scorer
    (numZeroshot - prior.length).toNat hp poolPtr allocated.1 allocated.2
  (looped.1, looped.2, allocated.2)

/-- The pruning loop acting on the heap: only the cell at `p`
(`zeroshot_configs.remove`, line 123) is written. -/
def pruneLoopHeap (scorer : List β → ℚ) (removalThreshold : ℚ) :
    ℕ → PyHeap β → ℕ → ℚ → PyHeap β
  | 0, h, _, _ => h
  | fuel + 1, h, p, bestScore =>
    match pruneScan scorer removalThreshold (h.read p) (h.read p) none
        bestScore with
    | (some c, s) =>
        pruneLoopHeap scorer removalThreshold fuel
          (h.write p ((h.read p).erase c)) p s
    | (none, _) => h

/-- `prune_zeroshot_configs` on the heap: line 104 deep-copies the caller's
portfolio into a fresh cell, and the rounds mutate only that cell. -/
def prune_zeroshot_configs_heap (scorer : List β → ℚ)
    (removalThreshold : ℚ) (h : PyHeap β) (zsPtr : ℕ) : PyHeap β × ℕ :=
  let zs := h.read zsPtr
  let allocated := h.alloc zs
  (pruneLoopHeap scorer removalThreshold (zs.length + 1) allocated.1
    allocated.2 (scorer zs), allocated.2)

/-- The selector backend picks an element of the remaining candidate list
whenever that list is non-empty.  This holds unconditionally for the ray
backend, and for the sequential backend whenever the scorer stays strictly
below the sentinel `999999999`. -/
def PicksValid (backend : Backend) (scorer : List (Option α) → ℚ)
    (allConfigs : List α) : Prop :=
  ∀ zs : List (Option α), validConfigs allConfigs zs ≠ [] →
    ∃ c ∈ validConfigs allConfigs zs,
      loopStep backend scorer allConfigs zs = some c

/-! ## Concrete scorers used in counterexamples and witnesses -/

/-- A scorer that always returns `10^9`, which is not below the sentinel
`999999999`. -/
def hugeScorer : List (Option ℕ) → ℚ := fun _ => 1000000000

/-- The same constant scorer over plain configuration lists. -/
def hugeScorerP : List ℕ → ℚ := fun _ => 1000000000

/-- A scorer depending only on list length: `[] ↦ 50`, singleton `↦ 80`,
pair `↦ 100` (and `50` beyond). -/
def lenScorer : List ℕ → ℚ := fun l =>
  if l.length = 2 then 100 else if l.length = 1 then 80 else 50

/-- A scorer returning the first element of the list (`0` on empty lists). -/
def headScorer : List ℕ → ℚ := fun l => (l.headD 0 : ℕ)

/-! ## Characterisation of the sequential selection scan -/

theorem selectScan_some_spec (g : α → ℚ) (cs : List α) :
    ∀ a : α, ∃ w, selectScan g cs (some a) (g a) = (some w, g w) ∧
      g w ≤ g a ∧ (∀ c ∈ cs, g w ≤ g c) ∧
      (w = a ∨ ∃ l₁ l₂, cs = l₁ ++ w :: l₂ ∧ (∀ c ∈ l₁, g w < g c) ∧
        g w < g a) := by
  induction cs with
  | nil => exact fun a => ⟨a, rfl, le_rfl, by simp, Or.inl rfl⟩
  | cons c cs ih =>
    intro a
    by_cases h : g c < g a
    · obtain ⟨w, heq, hle, hall, hcase⟩ := ih c
      refine ⟨w, ?_, hle.trans h.le, ?_, ?_⟩
      · rw [selectScan, if_pos h]; exact heq
      · intro x hx
        rcases List.mem_cons.1 hx with rfl | hx
        · exact hle
        · exact hall x hx
      · rcases hcase with rfl | ⟨l₁, l₂, hdec, hstr, hlt⟩
        · exact Or.inr ⟨[], cs, rfl, by simp, h⟩
        · refine Or.inr ⟨c :: l₁, l₂, by rw [hdec]; rfl, ?_, hlt.trans h⟩
          intro x hx
          rcases List.mem_cons.1 hx with rfl | hx
          · exact hlt
          · exact hstr x hx
    · obtain ⟨w, heq, hle, hall, hcase⟩ := ih a
      have hac : g a ≤ g c := not_lt.1 h
      refine ⟨w, ?_, hle, ?_, ?_⟩
      · rw [selectScan, if_neg h]; exact heq
      · intro x hx
        rcases List.mem_cons.1 hx with rfl | hx
        · exact hle.trans hac
        · exact hall x hx
      · rcases hcase with rfl | ⟨l₁, l₂, hdec, hstr, hlt⟩
        · exact Or.inl rfl
        · refine Or.inr ⟨c :: l₁, l₂, by rw [hdec]; rfl, ?_, hlt⟩
          intro x hx
          rcases List.mem_cons.1 hx with rfl | hx
          · exact hlt.trans_le hac
          · exact hstr x hx

theorem selectScan_none_spec (g : α → ℚ) (cs : List α) :
    ∀ b : ℚ, (∃ c ∈ cs, g c < b) →
      ∃ w, selectScan g cs none b = (some w, g w) ∧ g w < b ∧
        IsFirstMin g cs w := by
  induction cs with
  | nil => rintro b ⟨c, hc, -⟩; exact absurd hc (List.not_mem_nil c)
  | cons c cs ih =>
    intro b hex
    by_cases h : g c < b
    · obtain ⟨w, heq, hle, hall, hcase⟩ := selectScan_some_spec g cs c
      refine ⟨w, ?_, hle.trans_lt h, ?_, ?_⟩
      · rw [selectScan, if_pos h]; exact heq
      · intro x hx
        rcases List.mem_cons.1 hx with rfl | hx
        · exact hle
        · exact hall x hx
      · rcases hcase with rfl | ⟨l₁, l₂, hdec, hstr, hlt⟩
        · exact ⟨[], cs, rfl, by simp⟩
        · refine ⟨c :: l₁, l₂, by rw [hdec]; rfl, ?_⟩
          intro x hx
          rcases List.mem_cons.1 hx with rfl | hx
          · exact hlt
          · exact hstr x hx
    · obtain ⟨x, hx, hxb⟩ := hex
      have hxcs : x ∈ cs := by
        rcases List.mem_cons.1 hx with rfl | hx'
        · exact absurd hxb h
        · exact hx'
      obtain ⟨w, heq, hwb, hbound, l₁, l₂, hdec, hstr⟩ := ih b ⟨x, hxcs, hxb⟩
      have hbc : b ≤ g c := not_lt.1 h
      refine ⟨w, ?_, hwb, ?_, c :: l₁, l₂, by rw [hdec]; rfl, ?_⟩
      · rw [selectScan, if_neg h]; exact heq
      · intro y hy
        rcases List.mem_cons.1 hy with rfl | hy
        · exact (hwb.trans_le hbc).le
        · exact hbound y hy
      · intro y hy
        rcases List.mem_cons.1 hy with rfl | hy
        · exact hwb.trans_le hbc
        · exact hstr y hy

theorem IsFirstMin.unique {g : α → ℚ} :
    ∀ {cs : List α} {w w' : α},
      IsFirstMin g cs w → IsFirstMin g cs w' → w = w' := by
  intro cs
  induction cs with
  | nil =>
    rintro w w' ⟨-, l₁, l₂, hdec, -⟩ -
    exact absurd hdec.symm (by simp)
  | cons c cs ih =>
    rintro w w' ⟨hb1, l₁, l₂, hd1, hs1⟩ ⟨hb2, m₁, m₂, hd2, hs2⟩
    cases l₁ with
    | nil =>
      cases m₁ with
      | nil =>
        rw [List.nil_append] at hd1 hd2
        injection hd1 with h1 h1t
        injection hd2 with h2 h2t
        rw [← h1, ← h2]
      | cons x m₁' =>
        rw [List.nil_append] at hd1
        injection hd1 with h1 h1t
        injection hd2 with h2 h2t
        have hw'w : g w' < g w := by
          refine hs2 w ?_
          rw [← h2, h1]
          exact List.mem_cons_self ..
        have hww' : g w ≤ g w' := by
          refine hb1 w' ?_
          rw [h2t]
          exact List.mem_cons_of_mem _ (by simp)
        exact absurd hw'w (not_lt.2 hww')
    | cons y l₁' =>
      cases m₁ with
      | nil =>
        rw [List.nil_append] at hd2
        injection hd2 with h2 h2t
        injection hd1 with h1 h1t
        have hww' : g w < g w' := by
          refine hs1 w' ?_
          rw [← h1, h2]
          exact List.mem_cons_self ..
        have hw'w : g w' ≤ g w := by
          refine hb2 w ?_
          rw [h1t]
          exact List.mem_cons_of_mem _ (by simp)
        exact absurd hww' (not_lt.2 hw'w)
      | cons x m₁' =>
        injection hd1 with h1 ht1
        injection hd2 with h2 ht2
        refine ih ⟨?_, l₁', l₂, ht1, ?_⟩ ⟨?_, m₁', m₂, ht2, ?_⟩
        · exact fun z hz => hb1 z (List.mem_cons_of_mem _ hz)
        · exact fun z hz => hs1 z (List.mem_cons_of_mem _ hz)
        · exact fun z hz => hb2 z (List.mem_cons_of_mem _ hz)
        · exact fun z hz => hs2 z (List.mem_cons_of_mem _ hz)

theorem IsFirstMin.mem {g : α → ℚ} {cs : List α} {w : α}
    (h : IsFirstMin g cs w) : w ∈ cs := by
  obtain ⟨-, l₁, l₂, hdec, -⟩ := h
  rw [hdec]; simp

/-! ## Characterisation of the ray selection -/

theorem foldl_min_mem : ∀ (xs : List ℚ) (x : ℚ), xs.foldl min x ∈ x :: xs := by
  intro xs
  induction xs with
  | nil => intro x; simp [List.foldl]
  | cons y ys ih =>
    intro x
    rw [List.foldl_cons]
    rcases min_choice x y with h' | h' <;> rw [h']
    · rcases List.mem_cons.1 (ih x) with hm | hm
      · simp [hm]
      · simp [List.mem_cons, hm]
    · rcases List.mem_cons.1 (ih y) with hm | hm
      · simp [hm]
      · simp [List.mem_cons, hm]

theorem foldl_min_le : ∀ (xs : List ℚ) (x : ℚ),
    xs.foldl min x ≤ x ∧ ∀ y ∈ xs, xs.foldl min x ≤ y := by
  intro xs
  induction xs with
  | nil => intro x; exact ⟨le_rfl, by simp⟩
  | cons y ys ih =>
    intro x
    obtain ⟨h1, h2⟩ := ih (min x y)
    rw [List.foldl_cons]
    refine ⟨h1.trans (min_le_left ..), ?_⟩
    intro z hz
    rcases List.mem_cons.1 hz with rfl | hz
    · exact h1.trans (min_le_right ..)
    · exact h2 z hz

theorem pyMin_spec (l : List ℚ) (h : l ≠ []) :
    ∃ m, pyMin l = some m ∧ m ∈ l ∧ ∀ y ∈ l, m ≤ y := by
  match l with
  | [] => exact absurd rfl h
  | x :: xs =>
    refine ⟨xs.foldl min x, rfl, foldl_min_mem xs x, ?_⟩
    intro y hy
    obtain ⟨h1, h2⟩ := foldl_min_le xs x
    rcases List.mem_cons.1 hy with rfl | hy
    · exact h1
    · exact h2 y hy

theorem get_ne_of_lt_indexOf :
    ∀ (l : List ℚ) (a : ℚ) (j : ℕ), j < l.indexOf a →
      ∀ hj : j < l.length, l.get ⟨j, hj⟩ ≠ a := by
  intro l
  induction l with
  | nil => intro a j hj; simp [List.indexOf_nil] at hj
  | cons x xs ih =>
    intro a j hj hjl
    by_cases hxa : x = a
    · rw [List.indexOf_cons_eq _ hxa] at hj
      exact absurd hj (Nat.not_lt_zero j)
    · rw [List.indexOf_cons_ne _ hxa] at hj
      match j with
      | 0 => exact hxa
      | j + 1 => exact ih a j (Nat.lt_of_succ_lt_succ hj) _

theorem rayArgmin_spec (g : α → ℚ) (configs : List α) (h : configs ≠ []) :
    ∃ w, rayArgmin g configs = some (w, g w) ∧ IsFirstMin g configs w := by
  have hres : configs.map g ≠ [] := by
    simpa [List.map_eq_nil_iff] using h
  obtain ⟨m, hm, hmem, hle⟩ := pyMin_spec (configs.map g) hres
  have hidx : (configs.map g).indexOf m < (configs.map g).length :=
    List.indexOf_lt_length.2 hmem
  have hidx' : (configs.map g).indexOf m < configs.length := by
    simpa using hidx
  refine ⟨configs.get ⟨(configs.map g).indexOf m, hidx'⟩, ?_, ?_, ?_⟩
  · have hgw : g (configs.get ⟨(configs.map g).indexOf m, hidx'⟩) = m := by
      have h1 := @List.indexOf_get ℚ _ m (configs.map g) hidx
      rw [List.get_eq_getElem, List.getElem_map] at h1
      exact h1
    rw [rayArgmin]
    simp only [hm, List.get?_eq_get hidx']
    rw [hgw]
    rfl
  · intro c hc
    have hgw : g (configs.get ⟨(configs.map g).indexOf m, hidx'⟩) = m := by
      have h1 := @List.indexOf_get ℚ _ m (configs.map g) hidx
      rw [List.get_eq_getElem, List.getElem_map] at h1
      exact h1
    rw [hgw]
    exact hle (g c) (List.mem_map_of_mem g hc)
  · refine ⟨configs.take ((configs.map g).indexOf m),
      configs.drop ((configs.map g).indexOf m + 1), ?_, ?_⟩
    · conv_lhs => rw [← List.take_append_drop ((configs.map g).indexOf m)
        configs]
      rw [List.drop_eq_getElem_cons hidx']
      rfl
    · intro c hc
      obtain ⟨j, hjlen, hjc⟩ := List.mem_iff_getElem.1 hc
      have hjlt : j < (configs.map g).indexOf m := by
        have := hjlen
        rw [List.length_take] at this
        exact lt_of_lt_of_le this (Nat.min_le_left ..)
      have hjl : j < configs.length := lt_of_lt_of_le hjlt hidx'.le
      have hcj : c = configs.get ⟨j, hjl⟩ := by
        rw [← hjc, List.getElem_take, List.get_eq_getElem]
      have hne : g c ≠ m := by
        have hjr : j < (configs.map g).length := by simpa using hjl
        have := get_ne_of_lt_indexOf (configs.map g) m j hjlt hjr
        rw [List.get_eq_getElem, List.getElem_map] at this
        rw [hcj]
        exact this
      have hgem : m ≤ g c :=
        hle (g c) (List.mem_map_of_mem g (List.mem_of_mem_take hc))
      have hgw : g (configs.get ⟨(configs.map g).indexOf m, hidx'⟩) = m := by
        have h1 := @List.indexOf_get ℚ _ m (configs.map g) hidx
        rw [List.get_eq_getElem, List.getElem_map] at h1
        exact h1
      rw [hgw]
      exact lt_of_le_of_ne hgem (Ne.symm hne)

/-! ## The forward-selection loop -/

theorem mem_validConfigs {allConfigs : List α} {zs : List (Option α)}
    {c : α} :
    c ∈ validConfigs allConfigs zs ↔ c ∈ allConfigs ∧ ¬ (some c ∈ zs) := by
  simp [validConfigs, List.mem_filter]

theorem validConfigs_append (allConfigs : List α) (zs : List (Option α))
    (c : α) :
    validConfigs allConfigs (zs ++ [some c]) =
      (validConfigs allConfigs zs).filter fun x => ¬ x = c := by
  unfold validConfigs
  rw [List.filter_filter]
  refine List.filter_congr ?_
  intro x _
  by_cases h : x = c <;> by_cases h2 : some x ∈ zs <;> simp [h, h2]

theorem length_filter_ne_of_nodup {l : List α} (hnd : l.Nodup) {c : α}
    (hc : c ∈ l) :
    (l.filter fun x => ¬ x = c).length = l.length - 1 := by
  have he : l.erase c = l.filter fun x => ¬ x = c := by
    rw [hnd.erase_eq_filter c]
    refine List.filter_congr ?_
    intro x _
    by_cases h : x = c <;> simp [h]
  rw [← he]
  have := List.length_erase_add_one hc
  omega

theorem picksValid_ray (scorer : List (Option α) → ℚ)
    (allConfigs : List α) : PicksValid Backend.ray scorer allConfigs := by
  intro zs hvalid
  obtain ⟨w, heq, hfm⟩ :=
    rayArgmin_spec (fun c => scorer (zs ++ [some c])) _ hvalid
  refine ⟨w, hfm.mem, ?_⟩
  rw [loopStep, heq]

theorem picksValid_sequential (scorer : List (Option α) → ℚ)
    (allConfigs : List α) (hb : ∀ l, scorer l < sentinelScore) :
    PicksValid Backend.sequential scorer allConfigs := by
  intro zs hvalid
  obtain ⟨c, hc⟩ := List.exists_mem_of_ne_nil _ hvalid
  obtain ⟨w, heq, -, hfm⟩ :=
    selectScan_none_spec (fun c => scorer (zs ++ [some c])) _ sentinelScore
      ⟨c, hc, hb _⟩
  refine ⟨w, hfm.mem, ?_⟩
  rw [loopStep, heq]

theorem selectLoop_nodup {backend : Backend}
    {scorer : List (Option α) → ℚ} {allConfigs : List α}
    (hp : PicksValid backend scorer allConfigs) :
    ∀ (fuel : ℕ) (zs : List (Option α)), zs.Nodup →
      (selectLoop backend scorer allConfigs fuel zs).Nodup := by
  intro fuel
  induction fuel with
  | zero => exact fun zs h => h
  | succ fuel ih =>
    intro zs hnd
    rw [selectLoop]
    by_cases hv : (validConfigs allConfigs zs).isEmpty
    · rw [if_pos hv]; exact hnd
    · rw [if_neg hv]
      obtain ⟨c, hc, hstep⟩ := hp zs (by simpa [List.isEmpty_iff] using hv)
      rw [hstep]
      refine ih _ (List.nodup_append.2 ⟨hnd, List.nodup_singleton _, ?_⟩)
      intro a ha ha'
      rw [List.mem_singleton] at ha'
      subst ha'
      exact (mem_validConfigs.1 hc).2 ha

theorem selectLoop_length {backend : Backend}
    {scorer : List (Option α) → ℚ} {allConfigs : List α}
    (hp : PicksValid backend scorer allConfigs) (hnd : allConfigs.Nodup) :
    ∀ (fuel : ℕ) (zs : List (Option α)),
      (selectLoop backend scorer allConfigs fuel zs).length =
        zs.length + min fuel (validConfigs allConfigs zs).length := by
  intro fuel
  induction fuel with
  | zero => intro zs; simp [selectLoop]
  | succ fuel ih =>
    intro zs
    rw [selectLoop]
    by_cases hv : (validConfigs allConfigs zs).isEmpty
    · rw [if_pos hv]
      rw [List.isEmpty_iff] at hv
      simp [hv]
    · rw [if_neg hv]
      obtain ⟨c, hc, hstep⟩ := hp zs (by simpa [List.isEmpty_iff] using hv)
      rw [hstep, ih]
      have hvnd : (validConfigs allConfigs zs).Nodup := hnd.filter _
      rw [validConfigs_append, List.length_append,
        length_filter_ne_of_nodup hvnd hc]
      have hpos : 0 < (validConfigs allConfigs zs).length :=
        List.length_pos.2 (by simpa [List.isEmpty_iff] using hv)
      simp only [List.length_singleton]
      omega

/-! ## Backward pruning -/

theorem erase_eq_filter_ne {l : List β} (hnd : l.Nodup) (c : β) :
    l.erase c = l.filter fun x => x ≠ c := by
  rw [hnd.erase_eq_filter c]
  refine List.filter_congr ?_
  intro x _
  by_cases h : x = c <;> simp [h]

theorem pruneScan_none_stay (scorer : List β → ℚ) (t : ℚ) (zs : List β) :
    ∀ (cs : List β) (b : ℚ),
      (∀ c ∈ cs, ¬ scorer (zs.filter fun y => y ≠ c) ≤ b + t) →
      pruneScan scorer t zs cs none b = (none, b) := by
  intro cs
  induction cs with
  | nil => intro b _; rfl
  | cons c cs ih =>
    intro b hall
    rw [pruneScan, if_neg (hall c (List.mem_cons_self ..))]
    exact ih b fun x hx => hall x (List.mem_cons_of_mem _ hx)

theorem pruneScan_some_spec (scorer : List β → ℚ) (t : ℚ) (zs : List β) :
    ∀ (cs : List β) (a : β),
      ∃ w, pruneScan scorer t zs cs (some a)
            (scorer (zs.filter fun y => y ≠ a)) =
          (some w, scorer (zs.filter fun y => y ≠ w)) ∧
        scorer (zs.filter fun y => y ≠ w) ≤
          scorer (zs.filter fun y => y ≠ a) ∧
        (∀ c ∈ cs, scorer (zs.filter fun y => y ≠ w) ≤
          scorer (zs.filter fun y => y ≠ c)) ∧
        (w = a ∨ w ∈ cs) := by
  intro cs
  induction cs with
  | nil => intro a; exact ⟨a, rfl, le_rfl, by simp, Or.inl rfl⟩
  | cons c cs ih =>
    intro a
    by_cases h : scorer (zs.filter fun y => y ≠ c) ≤
        scorer (zs.filter fun y => y ≠ a)
    · obtain ⟨w, heq, hle, hall, hcase⟩ := ih c
      refine ⟨w, ?_, hle.trans h, ?_, ?_⟩
      · rw [pruneScan, if_pos h]; exact heq
      · intro x hx
        rcases List.mem_cons.1 hx with rfl | hx
        · exact hle
        · exact hall x hx
      · rcases hcase with rfl | hw
        · exact Or.inr (List.mem_cons_self ..)
        · exact Or.inr (List.mem_cons_of_mem _ hw)
    · obtain ⟨w, heq, hle, hall, hcase⟩ := ih a
      have hac : scorer (zs.filter fun y => y ≠ a) ≤
          scorer (zs.filter fun y => y ≠ c) := (not_le.1 h).le
      refine ⟨w, ?_, hle, ?_, ?_⟩
      · rw [pruneScan, if_neg h]; exact heq
      · intro x hx
        rcases List.mem_cons.1 hx with rfl | hx
        · exact hle.trans hac
        · exact hall x hx
      · rcases hcase with rfl | hw
        · exact Or.inl rfl
        · exact Or.inr (List.mem_cons_of_mem _ hw)

theorem pruneScan_none_found (scorer : List β → ℚ) (t : ℚ) (zs : List β) :
    ∀ (cs : List β) (b : ℚ),
      (∃ c ∈ cs, scorer (zs.filter fun y => y ≠ c) ≤ b + t) →
      ∃ w, pruneScan scorer t zs cs none b =
          (some w, scorer (zs.filter fun y => y ≠ w)) ∧ w ∈ cs ∧
        scorer (zs.filter fun y => y ≠ w) ≤ b + t ∧
        ∀ c ∈ cs, scorer (zs.filter fun y => y ≠ w) ≤
          scorer (zs.filter fun y => y ≠ c) := by
  intro cs
  induction cs with
  | nil => rintro b ⟨c, hc, -⟩; exact absurd hc (List.not_mem_nil c)
  | cons c cs ih =>
    intro b hex
    by_cases h : scorer (zs.filter fun y => y ≠ c) ≤ b + t
    · obtain ⟨w, heq, hle, hall, hcase⟩ := pruneScan_some_spec scorer t zs cs c
      refine ⟨w, ?_, ?_, hle.trans h, ?_⟩
      · rw [pruneScan, if_pos h]; exact heq
      · rcases hcase with rfl | hw
        · exact List.mem_cons_self ..
        · exact List.mem_cons_of_mem _ hw
      · intro x hx
        rcases List.mem_cons.1 hx with rfl | hx
        · exact hle
        · exact hall x hx
    · obtain ⟨x, hx, hxb⟩ := hex
      have hxcs : x ∈ cs := by
        rcases List.mem_cons.1 hx with rfl | hx'
        · exact absurd hxb h
        · exact hx'
      obtain ⟨w, heq, hmem, hwt, hall⟩ := ih b ⟨x, hxcs, hxb⟩
      refine ⟨w, ?_, List.mem_cons_of_mem _ hmem, hwt, ?_⟩
      · rw [pruneScan, if_neg h]; exact heq
      · intro y hy
        rcases List.mem_cons.1 hy with rfl | hy
        · exact hwt.trans (not_le.1 h).le
        · exact hall y hy

theorem pruneLoop_result (scorer : List β → ℚ) (t : ℚ) :
    ∀ (fuel : ℕ) (zs : List β), zs.Nodup → zs.length < fuel →
      (pruneLoop scorer t fuel zs (scorer zs)).Nodup ∧
      pruneScan scorer t (pruneLoop scorer t fuel zs (scorer zs))
          (pruneLoop scorer t fuel zs (scorer zs)) none
          (scorer (pruneLoop scorer t fuel zs (scorer zs))) =
        (none, scorer (pruneLoop scorer t fuel zs (scorer zs))) := by
  intro fuel
  induction fuel with
  | zero => intro zs _ hlen; exact absurd hlen (Nat.not_lt_zero _)
  | succ fuel ih =>
    intro zs hnd hlen
    by_cases hq : ∃ c ∈ zs, scorer (zs.filter fun y => y ≠ c) ≤ scorer zs + t
    · obtain ⟨w, heq, hmem, hwt, hall⟩ :=
        pruneScan_none_found scorer t zs zs (scorer zs) hq
      have hgw : scorer (zs.filter fun y => y ≠ w) = scorer (zs.erase w) := by
        rw [erase_eq_filter_ne hnd w]
      rw [pruneLoop, heq, hgw]
      have hlen' : (zs.erase w).length < fuel := by
        have := List.length_erase_add_one hmem
        omega
      exact ih (zs.erase w) (hnd.erase w) hlen'
    · push_neg at hq
      have hstay := pruneScan_none_stay scorer t zs zs (scorer zs)
        fun c hc => not_le.2 (hq c hc)
      rw [pruneLoop, hstay]
      exact ⟨hnd, hstay⟩

/-! ## K-fold cross-validation -/

theorem sum_range_map_div_ite (k r a : ℕ) :
    ((List.range k).map fun i => a + if i < r then 1 else 0).sum =
      k * a + min r k := by
  induction k with
  | zero => simp
  | succ k ih =>
    rw [List.range_succ, List.map_append, List.sum_append, ih]
    have hm : (k + 1) * a = k * a + a := Nat.succ_mul ..
    by_cases h : k < r <;> simp [h] <;> omega

theorem kfoldSizes_sum (n k : ℕ) (hk : 0 < k) : (kfoldSizes n k).sum = n := by
  rw [kfoldSizes, sum_range_map_div_ite]
  have h1 : n % k < k := Nat.mod_lt _ hk
  have h2 : k * (n / k) + n % k = n := Nat.div_add_mod ..
  omega

theorem chunksOf_flatten :
    ∀ (szs : List ℕ) (l : List ℕ), szs.sum = l.length →
      (chunksOf szs l).flatten = l := by
  intro szs
  induction szs with
  | nil =>
    intro l h
    rw [List.sum_nil] at h
    rw [(List.length_eq_zero.1 h.symm)]
    rfl
  | cons sz szs ih =>
    intro l h
    rw [List.sum_cons] at h
    rw [chunksOf, List.flatten_cons, ih (l.drop sz) (by
      rw [List.length_drop]; omega)]
    exact List.take_append_drop ..

theorem filterMap_get?_range :
    ∀ u : List ℕ, (List.range u.length).filterMap u.get? = u := by
  intro u
  induction u with
  | nil => rfl
  | cons a u ih =>
    rw [List.length_cons, List.range_succ_eq_map, List.filterMap_cons,
      List.filterMap_map]
    have hcomp : ((a :: u).get? ∘ Nat.succ) = u.get? := by
      funext i
      simp
    rw [hcomp, ih]
    rfl

theorem get?_inj_of_nodup {u : List ℕ} (hnd : u.Nodup) {i j x : ℕ}
    (hi : u.get? i = some x) (hj : u.get? j = some x) : i = j := by
  obtain ⟨hi', hgi⟩ := List.get?_eq_some.1 hi
  obtain ⟨hj', hgj⟩ := List.get?_eq_some.1 hj
  have hinj := List.nodup_iff_injective_get.1 hnd
    (show u.get ⟨i, hi'⟩ = u.get ⟨j, hj'⟩ from hgi.trans hgj.symm)
  exact congrArg Fin.val hinj

theorem uniqueDatasets_nodup {δ : Type} (m : δ → ℕ) (ds : List δ) :
    (uniqueDatasets m ds).Nodup := by
  rw [uniqueDatasets]
  exact ((List.mergeSort_perm (ds.map m).dedup _).nodup_iff).2
    (List.nodup_dedup _)

theorem kfoldTestFolds_flatten (k : ℕ) (hk : 0 < k) (perm : List ℕ) :
    (kfoldTestFolds k perm).flatten = perm :=
  chunksOf_flatten _ _ (kfoldSizes_sum perm.length k hk)

theorem mem_of_mem_kfoldTestFolds {k : ℕ} (hk : 0 < k) {perm : List ℕ}
    {test : List ℕ} (ht : test ∈ kfoldTestFolds k perm) {i : ℕ}
    (hi : i ∈ test) : i ∈ perm := by
  rw [← kfoldTestFolds_flatten k hk perm]
  exact List.mem_flatten_of_mem ht hi

theorem mem_XOfIndices {u : List ℕ} {idxs : List ℕ} {x : ℕ} :
    x ∈ XOfIndices u idxs ↔ ∃ i ∈ idxs, u.get? i = some x := by
  simp [XOfIndices, List.mem_filterMap]

theorem mem_kfoldTrainFold {n : ℕ} {test : List ℕ} {j : ℕ} :
    j ∈ kfoldTrainFold n test ↔ j < n ∧ ¬ j ∈ test := by
  simp [kfoldTrainFold, List.mem_filter, List.mem_range]

/-! ## Heap frame lemmas -/

theorem PyHeap.read_write_ne {γ : Type} (h : PyHeap γ) {p q : ℕ}
    (hpq : q ≠ p) (v : List γ) : (h.write p v).read q = h.read q := by
  unfold PyHeap.read PyHeap.write
  rw [List.getD_eq_getElem?_getD, List.getD_eq_getElem?_getD,
    List.getElem?_set_ne (Ne.symm hpq)]

theorem PyHeap.read_write_self {γ : Type} (h : PyHeap γ) {p : ℕ}
    (hp : p < h.cells.length) (v : List γ) : (h.write p v).read p = v := by
  unfold PyHeap.read PyHeap.write
  rw [List.getD_eq_getElem?_getD, List.getElem?_set_self hp]
  rfl

theorem PyHeap.write_length {γ : Type} (h : PyHeap γ) (p : ℕ) (v : List γ) :
    (h.write p v).cells.length = h.cells.length := by
  unfold PyHeap.write
  exact List.length_set ..

theorem PyHeap.read_alloc_fresh {γ : Type} (h : PyHeap γ) (v : List γ) :
    (h.alloc v).1.read (h.alloc v).2 = v := by
  unfold PyHeap.read PyHeap.alloc
  rw [List.getD_eq_getElem?_getD, List.getElem?_concat_length]
  rfl

theorem PyHeap.read_alloc_old {γ : Type} (h : PyHeap γ) (v : List γ) {q : ℕ}
    (hq : q < h.cells.length) : (h.alloc v).1.read q = h.read q := by
  unfold PyHeap.read PyHeap.alloc
  rw [List.getD_eq_getElem?_getD, List.getD_eq_getElem?_getD,
    List.getElem?_append_left hq]

theorem selectLoopHeap_frame (backend : Backend)
    (scorer : List (Option α) → ℚ) :
    ∀ (fuel : ℕ) (hp : PyHeap α) (poolPtr : ℕ) (hz : PyHeap (Option α))
      (zsPtr : ℕ),
      (selectLoopHeap backend scorer fuel hp poolPtr hz zsPtr).1 = hp ∧
      ∀ q, q ≠ zsPtr →
        (selectLoopHeap backend scorer fuel hp poolPtr hz zsPtr).2.read q =
          hz.read q := by
  intro fuel
  induction fuel with
  | zero => exact fun hp poolPtr hz zsPtr => ⟨rfl, fun q _ => rfl⟩
  | succ fuel ih =>
    intro hp poolPtr hz zsPtr
    rw [selectLoopHeap]
    by_cases hv : (validConfigs (hp.read poolPtr) (hz.read zsPtr)).isEmpty
    · rw [if_pos hv]
      exact ⟨rfl, fun q _ => rfl⟩
    · rw [if_neg hv]
      obtain ⟨h1, h2⟩ := ih hp poolPtr
        (hz.write zsPtr (hz.read zsPtr ++
          [loopStep backend scorer (hp.read poolPtr) (hz.read zsPtr)])) zsPtr
      refine ⟨h1, fun q hq => ?_⟩
      rw [h2 q hq, PyHeap.read_write_ne _ hq]

theorem selectLoopHeap_read (backend : Backend)
    (scorer : List (Option α) → ℚ) :
    ∀ (fuel : ℕ) (hp : PyHeap α) (poolPtr : ℕ) (hz : PyHeap (Option α))
      (zsPtr : ℕ), zsPtr < hz.cells.length →
      (selectLoopHeap backend scorer fuel hp poolPtr hz zsPtr).2.read zsPtr =
        selectLoop backend scorer (hp.read poolPtr) fuel (hz.read zsPtr) := by
  intro fuel
  induction fuel with
  | zero => exact fun hp poolPtr hz zsPtr _ => rfl
  | succ fuel ih =>
    intro hp poolPtr hz zsPtr hlt
    rw [selectLoopHeap, selectLoop]
    by_cases hv : (validConfigs (hp.read poolPtr) (hz.read zsPtr)).isEmpty
    · rw [if_pos hv, if_pos hv]
    · rw [if_neg hv, if_neg hv]
      rw [ih hp poolPtr _ zsPtr (by rw [PyHeap.write_length]; exact hlt)]
      rw [PyHeap.read_write_self hz hlt]

theorem pruneLoopHeap_frame (scorer : List β → ℚ) (t : ℚ) :
    ∀ (fuel : ℕ) (h : PyHeap β) (p : ℕ) (s : ℚ) (q : ℕ), q ≠ p →
      (pruneLoopHeap scorer t fuel h p s).read q = h.read q := by
  intro fuel
  induction fuel with
  | zero => exact fun h p s q _ => rfl
  | succ fuel ih =>
    intro h p s q hq
    rw [pruneLoopHeap]
    rcases hscan : pruneScan scorer t (h.read p) (h.read p) none s with
      ⟨(_ | c), s'⟩
    · rfl
    · rw [ih _ p s' q hq, PyHeap.read_write_ne _ hq]

theorem pruneLoopHeap_read (scorer : List β → ℚ) (t : ℚ) :
    ∀ (fuel : ℕ) (h : PyHeap β) (p : ℕ) (s : ℚ), p < h.cells.length →
      (pruneLoopHeap scorer t fuel h p s).read p =
        pruneLoop scorer t fuel (h.read p) s := by
  intro fuel
  induction fuel with
  | zero => exact fun h p s _ => rfl
  | succ fuel ih =>
    intro h p s hlt
    rw [pruneLoopHeap, pruneLoop]
    rcases hscan : pruneScan scorer t (h.read p) (h.read p) none s with
      ⟨(_ | c), s'⟩
    · rfl
    · rw [ih _ p s' (by rw [PyHeap.write_length]; exact hlt)]
      rw [PyHeap.read_write_self h hlt]

theorem PyHeap.alloc_length {γ : Type} (h : PyHeap γ) (v : List γ) :
    (h.alloc v).1.cells.length = h.cells.length + 1 := by
  unfold PyHeap.alloc
  exact List.length_append ..

theorem validConfigs_nil (allConfigs : List α) :
    validConfigs allConfigs [] = allConfigs := by
  unfold validConfigs
  refine List.filter_eq_self.2 ?_
  intro a _
  simp

theorem selectLoop_nil_pool (backend : Backend)
    (scorer : List (Option α) → ℚ) :
    ∀ (fuel : ℕ) (zs : List (Option α)),
      selectLoop backend scorer [] fuel zs = zs := by
  intro fuel
  cases fuel with
  | zero => exact fun zs => rfl
  | succ fuel =>
    intro zs
    rw [selectLoop]
    rfl

theorem selectLoopScoreCalls_nil_pool (backend : Backend)
    (scorer : List (Option α) → ℚ) :
    ∀ (fuel : ℕ) (zs : List (Option α)),
      selectLoopScoreCalls backend scorer [] fuel zs = 0 := by
  intro fuel
  cases fuel with
  | zero => exact fun zs => rfl
  | succ fuel =>
    intro zs
    rw [selectLoopScoreCalls]
    rfl

theorem prune_nil (scorer : List β → ℚ) (t : ℚ) :
    prune_zeroshot_configs scorer [] t = [] := rfl

/-! ## Claim theorems -/

/-- C1 (counterexample): on a deterministic scorer whose scores do not fall
strictly below the sentinel `999999999`, the two modes disagree on the same
remaining-candidate list and prior portfolio: `_select_sequential` returns
its initial pair `(None, 999999999)` while `_select_ray` returns the
candidate `0` with its true score `10^9`, so the claim's universally
quantified mode-equivalence is false. -/
theorem c1_modes_disagree :
    selectSequential [0] ([] : List ℕ) hugeScorerP = (none, sentinelScore) ∧
    selectRay [0] ([] : List ℕ) hugeScorerP = some (0, 1000000000) ∧
    (none : Option ℕ) ≠ some 0 := by
  refine ⟨by decide, by decide, by decide⟩

/-- C1 (amended): whenever some remaining candidate scores strictly below
the sentinel `999999999`, `_select_sequential` and `_select_ray` applied to
the same remaining-candidate list, prior portfolio, and deterministic scorer
return the same `(selected candidate, best score)` pair. -/
theorem c1_modes_agree (configs priorConfigs : List α)
    (scorer : List α → ℚ)
    (h : ∃ c ∈ configs, scorer (priorConfigs ++ [c]) < sentinelScore) :
    ∃ w, selectSequential configs priorConfigs scorer =
        (some w, scorer (priorConfigs ++ [w])) ∧
      selectRay configs priorConfigs scorer =
        some (w, scorer (priorConfigs ++ [w])) := by
  obtain ⟨w, heq, -, hfm⟩ :=
    selectScan_none_spec (fun c => scorer (priorConfigs ++ [c])) configs
      sentinelScore h
  have hne : configs ≠ [] := by
    obtain ⟨c, hc, -⟩ := h
    exact List.ne_nil_of_mem hc
  obtain ⟨w', heq', hfm'⟩ :=
    rayArgmin_spec (fun c => scorer (priorConfigs ++ [c])) configs hne
  have hww' : w = w' := hfm.unique hfm'
  subst hww'
  exact ⟨w, heq, heq'⟩

/-- C1 (witness): the amended theorem applied to the pool `[5, 3]`, empty
prior portfolio, and the head-of-list scorer. -/
theorem c1_modes_agree_witness :
    (∃ c ∈ [5, 3], headScorer ([] ++ [c]) < sentinelScore) ∧
    ∃ w, selectSequential [5, 3] ([] : List ℕ) headScorer =
        (some w, headScorer ([] ++ [w])) ∧
      selectRay [5, 3] ([] : List ℕ) headScorer =
        some (w, headScorer ([] ++ [w])) :=
  ⟨by decide, c1_modes_agree [5, 3] [] headScorer (by decide)⟩

/-- C3 (counterexample): with a scorer that never goes strictly below the
sentinel, the sequential forward-selection iteration appends `None` to the
portfolio, which is not a remaining candidate at all — so the claim that the
appended element is always a minimal-score remaining candidate in both modes
is false. -/
theorem c3_pick_not_minimal :
    selectLoop Backend.sequential hugeScorer [0] 1 [] = [none] ∧
    ¬ ∃ c ∈ validConfigs [0] ([] : List (Option ℕ)),
      (none : Option ℕ) = some c := by
  refine ⟨by decide, by decide⟩

/-- C3 (amended): in ray mode the candidate selected from any non-empty
remaining-candidate list is a minimal-score candidate, the first such in
remaining-candidate order, unconditionally; in sequential mode the same
holds whenever some remaining candidate scores strictly below the sentinel
`999999999`. -/
theorem c3_first_minimal (configs priorConfigs : List α)
    (scorer : List α → ℚ) :
    (configs ≠ [] →
      ∃ w, IsFirstMin (fun c => scorer (priorConfigs ++ [c])) configs w ∧
        selectRay configs priorConfigs scorer =
          some (w, scorer (priorConfigs ++ [w]))) ∧
    ((∃ c ∈ configs, scorer (priorConfigs ++ [c]) < sentinelScore) →
      ∃ w, IsFirstMin (fun c => scorer (priorConfigs ++ [c])) configs w ∧
        (selectSequential configs priorConfigs scorer).1 = some w) := by
  constructor
  · intro hne
    obtain ⟨w, heq, hfm⟩ :=
      rayArgmin_spec (fun c => scorer (priorConfigs ++ [c])) configs hne
    exact ⟨w, hfm, heq⟩
  · intro h
    obtain ⟨w, heq, -, hfm⟩ :=
      selectScan_none_spec (fun c => scorer (priorConfigs ++ [c])) configs
        sentinelScore h
    refine ⟨w, hfm, ?_⟩
    rw [selectSequential, heq]

/-- C3 (witness): the amended theorem applied to the pool `[4, 1, 1]`, empty
prior portfolio, and the head-of-list scorer (the tied score `1` is resolved
to the first occurrence) — the ray half through non-emptiness alone, the
sequential half through the below-sentinel precondition. -/
theorem c3_first_minimal_witness :
    ([4, 1, 1] : List ℕ) ≠ [] ∧
    (∃ c ∈ [4, 1, 1], headScorer ([] ++ [c]) < sentinelScore) ∧
    (∃ w, IsFirstMin (fun c => headScorer ([] ++ [c])) [4, 1, 1] w ∧
      selectRay [4, 1, 1] ([] : List ℕ) headScorer =
        some (w, headScorer ([] ++ [w]))) ∧
    ∃ w, IsFirstMin (fun c => headScorer ([] ++ [c])) [4, 1, 1] w ∧
      (selectSequential [4, 1, 1] ([] : List ℕ) headScorer).1 = some w :=
  ⟨by decide, by decide,
    (c3_first_minimal [4, 1, 1] [] headScorer).1 (by decide),
    (c3_first_minimal [4, 1, 1] [] headScorer).2 (by decide)⟩

/-- C9: whenever some remaining candidate scores strictly below the sentinel
`999999999`, `_select_sequential` returns an element of the remaining
candidate list (the `None`-returning branch is unreachable). -/
theorem c9_sequential_in_pool (configs priorConfigs : List α)
    (scorer : List α → ℚ)
    (h : ∃ c ∈ configs, scorer (priorConfigs ++ [c]) < sentinelScore) :
    ∃ w ∈ configs, selectSequential configs priorConfigs scorer =
      (some w, scorer (priorConfigs ++ [w])) := by
  obtain ⟨w, heq, -, hfm⟩ :=
    selectScan_none_spec (fun c => scorer (priorConfigs ++ [c])) configs
      sentinelScore h
  exact ⟨w, hfm.mem, heq⟩

/-- C9 (witness): the theorem applied to the pool `[9, 2]`, empty prior
portfolio, and the head-of-list scorer. -/
theorem c9_sequential_in_pool_witness :
    (∃ c ∈ [9, 2], headScorer ([] ++ [c]) < sentinelScore) ∧
    ∃ w ∈ [9, 2], selectSequential [9, 2] ([] : List ℕ) headScorer =
      (some w, headScorer ([] ++ [w])) :=
  ⟨by decide, c9_sequential_in_pool [9, 2] [] headScorer (by decide)⟩

/-- C4 (counterexample): with the sequential backend and a scorer that never
goes strictly below the sentinel, the selection loop keeps appending `None`
and returns a portfolio of the requested size `K = 2`, not the pool size
`N = 1`, so the claim's universally quantified statement is false. -/
theorem c4_sequential_overruns :
    (select_zeroshot_configs Backend.sequential hugeScorer [0] 2 [] false
        0).length = 2 ∧
    [(0 : ℕ)].length = 1 := by
  refine ⟨by decide, by decide⟩

/-- C4 (amended): for a duplicate-free pool of size `N` and a target
`K > N`, starting from an empty prior portfolio with pruning disabled,
`select_zeroshot_configs` returns a portfolio of size exactly `N` — in ray
mode unconditionally, and in sequential mode whenever the scorer stays
strictly below the sentinel `999999999`. -/
theorem c4_pool_exhaustion (scorer : List (Option α) → ℚ)
    (allConfigs : List α) (hnd : allConfigs.Nodup) (K : ℤ)
    (hK : (allConfigs.length : ℤ) < K) (t : ℚ) :
    (select_zeroshot_configs Backend.ray scorer allConfigs K [] false
        t).length = allConfigs.length ∧
    ((∀ l, scorer l < sentinelScore) →
      (select_zeroshot_configs Backend.sequential scorer allConfigs K []
        false t).length = allConfigs.length) := by
  have hfuel : allConfigs.length < (K - (0 : ℕ)).toNat := by omega
  constructor
  · rw [select_zeroshot_configs, if_neg (by simp)]
    rw [selectLoop_length (picksValid_ray scorer allConfigs) hnd]
    rw [validConfigs_nil]
    simp only [List.length_nil, Nat.zero_add]
    omega
  · intro hb
    rw [select_zeroshot_configs, if_neg (by simp)]
    rw [selectLoop_length (picksValid_sequential scorer allConfigs hb) hnd]
    rw [validConfigs_nil]
    simp only [List.length_nil, Nat.zero_add]
    omega

/-- C4 (witness): the amended theorem applied to the pool `[1, 2]`, target
`K = 5`, and the constant-zero scorer. -/
theorem c4_pool_exhaustion_witness :
    ([1, 2] : List ℕ).Nodup ∧ (([1, 2] : List ℕ).length : ℤ) < 5 ∧
    (select_zeroshot_configs Backend.ray (fun _ => (0 : ℚ)) [1, 2] 5 [] false
        0).length = ([1, 2] : List ℕ).length ∧
    (select_zeroshot_configs Backend.sequential (fun _ => (0 : ℚ)) [1, 2] 5
        [] false 0).length = ([1, 2] : List ℕ).length :=
  ⟨by decide, by decide,
    (c4_pool_exhaustion (fun _ => (0 : ℚ)) [1, 2] (by decide) 5 (by decide)
      0).1,
    (c4_pool_exhaustion (fun _ => (0 : ℚ)) [1, 2] (by decide) 5 (by decide)
      0).2 fun l => by norm_num [sentinelScore]⟩

/-- C6 (counterexample): with `num_zeroshot = 0` and a non-empty prior
portfolio, `select_zeroshot_configs` returns the (deep-copied) prior
portfolio, not an empty portfolio, so the claim's "returns an empty
portfolio ... for every prior portfolio" is false. -/
theorem c6_prior_returned :
    select_zeroshot_configs Backend.sequential (fun _ => (0 : ℚ))
        ([] : List ℕ) 0 [some 7] false 0 = [some 7] ∧
    ([some 7] : List (Option ℕ)) ≠ [] := by
  refine ⟨by decide, by decide⟩

/-- C6 (amended): if the candidate pool is empty or `num_zeroshot ≤ 0`, the
forward-selection loop returns the prior portfolio unchanged, makes no
scorer call, and with an empty prior `select_zeroshot_configs` returns an
empty portfolio, for every backend, prior portfolio, and scorer. -/
theorem c6_trivial_request (backend : Backend)
    (scorer : List (Option α) → ℚ) (allConfigs : List α) (num : ℤ)
    (prior : List (Option α)) (removalStage : Bool) (t : ℚ)
    (h : num ≤ 0 ∨ allConfigs = []) :
    selectLoop backend scorer allConfigs (num - prior.length).toNat prior =
        prior ∧
    selectLoopScoreCalls backend scorer allConfigs
        (num - prior.length).toNat prior = 0 ∧
    select_zeroshot_configs backend scorer allConfigs num [] removalStage t
        = [] := by
  rcases h with h | rfl
  · have hfuel : (num - (prior.length : ℕ)).toNat = 0 := by omega
    have hfuel0 : (num - (([] : List (Option α)).length : ℕ)).toNat = 0 := by
      simp only [List.length_nil]
      omega
    refine ⟨by rw [hfuel]; rfl, by rw [hfuel]; rfl, ?_⟩
    rw [select_zeroshot_configs]
    rw [hfuel0]
    cases removalStage with
    | false => rfl
    | true => rw [if_pos rfl]; exact prune_nil scorer t
  · refine ⟨selectLoop_nil_pool .., selectLoopScoreCalls_nil_pool .., ?_⟩
    rw [select_zeroshot_configs, selectLoop_nil_pool]
    cases removalStage with
    | false => rfl
    | true => rw [if_pos rfl]; exact prune_nil scorer t

/-- C6 (witness): the amended theorem applied with `num_zeroshot = -1`, a
non-empty prior portfolio and pruning enabled. -/
theorem c6_trivial_request_witness :
    ((-1 : ℤ) ≤ 0 ∨ ([1] : List ℕ) = []) ∧
    (selectLoop Backend.ray (fun _ => (0 : ℚ)) [1]
        ((-1 : ℤ) - ([some 2] : List (Option ℕ)).length).toNat [some 2] =
      [some 2] ∧
    selectLoopScoreCalls Backend.ray (fun _ => (0 : ℚ)) [1]
        ((-1 : ℤ) - ([some 2] : List (Option ℕ)).length).toNat [some 2] = 0 ∧
    select_zeroshot_configs Backend.ray (fun _ => (0 : ℚ)) [1] (-1) [] true 0
        = []) :=
  ⟨Or.inl (by decide),
    c6_trivial_request Backend.ray (fun _ => (0 : ℚ)) [1] (-1) [some 2] true
      0 (Or.inl (by decide))⟩

/-- C8 (counterexample): with the sequential backend and a scorer that never
goes strictly below the sentinel, the maintained portfolio accumulates two
copies of `None`, so the claim that the portfolio never contains duplicate
elements (for every unique pool and duplicate-free prior) is false. -/
theorem c8_sequential_duplicates :
    selectLoop Backend.sequential hugeScorer [5] 2 [] = [none, none] ∧
    ¬ (selectLoop Backend.sequential hugeScorer [5] 2
        ([] : List (Option ℕ))).Nodup := by
  refine ⟨by decide, by decide⟩

/-- C8 (amended): the portfolio maintained by the forward-selection loop
never acquires duplicate elements — at every iteration and in the returned
portfolio — in ray mode unconditionally, and in sequential mode whenever the
scorer stays strictly below the sentinel; in particular a configuration
already in the portfolio is never selected again. -/
theorem c8_no_duplicates (scorer : List (Option α) → ℚ)
    (allConfigs : List α) :
    (∀ (fuel : ℕ) (zs : List (Option α)), zs.Nodup →
      (selectLoop Backend.ray scorer allConfigs fuel zs).Nodup) ∧
    ((∀ l, scorer l < sentinelScore) →
      ∀ (fuel : ℕ) (zs : List (Option α)), zs.Nodup →
        (selectLoop Backend.sequential scorer allConfigs fuel zs).Nodup) ∧
    (∀ (K : ℤ) (prior : List (Option α)) (t : ℚ), prior.Nodup →
      (select_zeroshot_configs Backend.ray scorer allConfigs K prior false
        t).Nodup) := by
  refine ⟨selectLoop_nodup (picksValid_ray scorer allConfigs), ?_, ?_⟩
  · intro hb
    exact selectLoop_nodup (picksValid_sequential scorer allConfigs hb)
  · intro K prior t hnd
    rw [select_zeroshot_configs, if_neg (by simp)]
    exact selectLoop_nodup (picksValid_ray scorer allConfigs) _ prior hnd

/-- C8 (witness): the theorem applied to the pool `[1, 2]` and constant-zero
scorer, instantiated at a duplicate-free prior portfolio. -/
theorem c8_no_duplicates_witness :
    ([some 9] : List (Option ℕ)).Nodup ∧
    (selectLoop Backend.ray (fun _ => (0 : ℚ)) [1, 2] 3 [some 9]).Nodup ∧
    (select_zeroshot_configs Backend.ray (fun _ => (0 : ℚ)) [1, 2] 3 [some 9]
      false 0).Nodup :=
  ⟨by decide,
    (c8_no_duplicates (fun _ => (0 : ℚ)) [1, 2]).1 3 [some 9] (by decide),
    (c8_no_duplicates (fun _ => (0 : ℚ)) [1, 2]).2.2 3 [some 9] 0
      (by decide)⟩

/-- C2 (counterexample): on the duplicate portfolio `[0, 0]` with slack `-1`
and the length-based scorer (`score [] = 50`, `score [x] = 80`,
`score [x, x] = 100`), pruning stops at `[0]` even though removing `0` from
`[0]` scores `50 ≤ 80 + (-1)` — a removal that qualifies against the score
of the portfolio at the start of that round.  The carried `best_score`
after the first round is the score `50` of `[]` (the comprehension at line
110 drops every copy of the removed configuration, while `remove` at line
123 deletes only the first), not the score `80` of the current portfolio
`[0]`, so the claim's round description is false on portfolios with
duplicates. -/
theorem c2_round_threshold_violated :
    prune_zeroshot_configs lenScorer [0, 0] (-1) = [0] ∧
    lenScorer (([0] : List ℕ).filter fun y => y ≠ 0) ≤
      lenScorer [0] + (-1) := by
  constructor
  · norm_num [prune_zeroshot_configs, pruneLoop, pruneScan, lenScorer]
  · norm_num [lenScorer, List.filter]

/-- C2 (amended): on a portfolio without duplicate elements, every pruning
round behaves as the claim states: if no configuration's exclusion scores
within `base_score + slack` of the round's starting score, pruning returns
the portfolio unchanged and terminates; otherwise the round removes a
configuration whose exclusion score is within the threshold and minimal
among all exclusions, and the loop continues on the shortened portfolio
whose score is the new carried `best_score`. -/
theorem c2_round_minimal (scorer : List β → ℚ) (t : ℚ) (zs : List β)
    (hnd : zs.Nodup) :
    ((∀ x ∈ zs, ¬ scorer (zs.filter fun y => y ≠ x) ≤ scorer zs + t) →
      prune_zeroshot_configs scorer zs t = zs) ∧
    ((∃ x ∈ zs, scorer (zs.filter fun y => y ≠ x) ≤ scorer zs + t) →
      ∃ w ∈ zs, scorer (zs.filter fun y => y ≠ w) ≤ scorer zs + t ∧
        (∀ x ∈ zs, scorer (zs.filter fun y => y ≠ w) ≤
          scorer (zs.filter fun y => y ≠ x)) ∧
        ∀ fuel : ℕ, pruneLoop scorer t (fuel + 1) zs (scorer zs) =
          pruneLoop scorer t fuel (zs.erase w) (scorer (zs.erase w))) := by
  constructor
  · intro hnone
    rw [prune_zeroshot_configs, pruneLoop,
      pruneScan_none_stay scorer t zs zs (scorer zs) hnone]
  · intro hex
    obtain ⟨w, heq, hmem, hwt, hall⟩ :=
      pruneScan_none_found scorer t zs zs (scorer zs) hex
    refine ⟨w, hmem, hwt, hall, ?_⟩
    intro fuel
    rw [pruneLoop, heq]
    show pruneLoop scorer t fuel (zs.erase w)
        (scorer (zs.filter fun y => y ≠ w)) = _
    rw [erase_eq_filter_ne hnd w]

/-- C2 (witness): the amended theorem applied to the duplicate-free
portfolio `[0, 1]` with slack `0` and the length-based scorer: both
exclusions score `80 ≤ 100 + 0`, so the round removes a minimal one. -/
theorem c2_round_minimal_witness :
    ([0, 1] : List ℕ).Nodup ∧
    (∃ x ∈ ([0, 1] : List ℕ),
      lenScorer (([0, 1] : List ℕ).filter fun y => y ≠ x) ≤
        lenScorer [0, 1] + 0) ∧
    ∃ w ∈ ([0, 1] : List ℕ),
      lenScorer (([0, 1] : List ℕ).filter fun y => y ≠ w) ≤
        lenScorer [0, 1] + 0 ∧
      (∀ x ∈ ([0, 1] : List ℕ),
        lenScorer (([0, 1] : List ℕ).filter fun y => y ≠ w) ≤
          lenScorer (([0, 1] : List ℕ).filter fun y => y ≠ x)) ∧
      ∀ fuel : ℕ, pruneLoop lenScorer 0 (fuel + 1) [0, 1]
          (lenScorer [0, 1]) =
        pruneLoop lenScorer 0 fuel (([0, 1] : List ℕ).erase w)
          (lenScorer (([0, 1] : List ℕ).erase w)) :=
  ⟨by decide, by refine ⟨0, by simp, ?_⟩; norm_num [lenScorer, List.filter],
    (c2_round_minimal lenScorer 0 [0, 1] (by decide)).2
      (by refine ⟨0, by simp, ?_⟩; norm_num [lenScorer, List.filter])⟩

/-- C7 (counterexample): pruning is not idempotent on portfolios with
duplicate elements: with slack `-1` and the length-based scorer,
`prune [0, 0] = [0]`, but pruning `[0]` again removes the remaining `0`
(its exclusion scores `50 ≤ 80 - 1` against the freshly computed base
`80`, while the first run had stopped with carried best score `50`). -/
theorem c7_not_idempotent :
    prune_zeroshot_configs lenScorer
        (prune_zeroshot_configs lenScorer [0, 0] (-1)) (-1) ≠
      prune_zeroshot_configs lenScorer [0, 0] (-1) := by
  norm_num [prune_zeroshot_configs, pruneLoop, pruneScan, lenScorer]

/-- C7 (amended): on portfolios without duplicate elements,
`prune_zeroshot_configs` is idempotent for every slack and deterministic
scorer. -/
theorem c7_idempotent (scorer : List β → ℚ) (t : ℚ) (zs : List β)
    (hnd : zs.Nodup) :
    prune_zeroshot_configs scorer
        (prune_zeroshot_configs scorer zs t) t =
      prune_zeroshot_configs scorer zs t := by
  obtain ⟨-, hstable⟩ :=
    pruneLoop_result scorer t (zs.length + 1) zs hnd (Nat.lt_succ_self _)
  show pruneLoop scorer t
      ((pruneLoop scorer t (zs.length + 1) zs (scorer zs)).length + 1)
      (pruneLoop scorer t (zs.length + 1) zs (scorer zs))
      (scorer (pruneLoop scorer t (zs.length + 1) zs (scorer zs))) =
    pruneLoop scorer t (zs.length + 1) zs (scorer zs)
  rw [pruneLoop, hstable]

/-- C7 (witness): the amended theorem applied to the duplicate-free
portfolio `[0, 1]` with slack `0` and the length-based scorer. -/
theorem c7_idempotent_witness :
    ([0, 1] : List ℕ).Nodup ∧
    prune_zeroshot_configs lenScorer
        (prune_zeroshot_configs lenScorer [0, 1] 0) 0 =
      prune_zeroshot_configs lenScorer [0, 1] 0 :=
  ⟨by decide, c7_idempotent lenScorer 0 [0, 1] (by decide)⟩

/-- C5: for every dataset list and parent mapping, every `n_splits ≥ 2`, and
every seeded shuffle (a permutation of the index range, fixed by
`random_state=0`), the per-fold `X_train`/`X_test` parent lists are disjoint
and together cover the parent universe `unique_datasets`; the test sides of
all folds are pairwise disjoint and their concatenation is a permutation of
the universe; and equal shuffles give identical fold assignments. -/
theorem c5_cv_partition {δ : Type} (m : δ → ℕ) (ds : List δ) (k : ℕ)
    (hk : 2 ≤ k) (perm : List ℕ)
    (hperm : perm.Perm (List.range (uniqueDatasets m ds).length)) :
    (∀ test ∈ kfoldTestFolds k perm,
      (∀ x, ¬ (x ∈ XOfIndices (uniqueDatasets m ds)
          (kfoldTrainFold (uniqueDatasets m ds).length test) ∧
        x ∈ XOfIndices (uniqueDatasets m ds) test)) ∧
      (∀ x, x ∈ uniqueDatasets m ds ↔
        (x ∈ XOfIndices (uniqueDatasets m ds)
          (kfoldTrainFold (uniqueDatasets m ds).length test) ∨
        x ∈ XOfIndices (uniqueDatasets m ds) test))) ∧
    ((kfoldTestFolds k perm).map
        (XOfIndices (uniqueDatasets m ds))).flatten.Perm
      (uniqueDatasets m ds) ∧
    List.Pairwise (fun t1 t2 => ∀ x,
      x ∈ XOfIndices (uniqueDatasets m ds) t1 →
      ¬ x ∈ XOfIndices (uniqueDatasets m ds) t2) (kfoldTestFolds k perm) ∧
    (∀ perm₂ : List ℕ, perm₂ = perm →
      kfoldTestFolds k perm₂ = kfoldTestFolds k perm) := by
  have hk0 : 0 < k := by omega
  set u := uniqueDatasets m ds with hu
  have hund : u.Nodup := uniqueDatasets_nodup m ds
  have hpermnd : perm.Nodup := hperm.nodup_iff.2 (List.nodup_range _)
  refine ⟨?_, ?_, ?_, fun p2 hp2 => by rw [hp2]⟩
  · intro test ht
    constructor
    · rintro x ⟨hxtr, hxte⟩
      obtain ⟨i, hi, hgi⟩ := mem_XOfIndices.1 hxtr
      obtain ⟨j, hj, hgj⟩ := mem_XOfIndices.1 hxte
      have hij : i = j := get?_inj_of_nodup hund hgi hgj
      subst hij
      exact (mem_kfoldTrainFold.1 hi).2 hj
    · intro x
      constructor
      · intro hx
        obtain ⟨idx, hidx⟩ := List.mem_iff_get?.1 hx
        have hlt : idx < u.length := (List.get?_eq_some.1 hidx).1
        by_cases hmem : idx ∈ test
        · exact Or.inr (mem_XOfIndices.2 ⟨idx, hmem, hidx⟩)
        · exact Or.inl (mem_XOfIndices.2
            ⟨idx, mem_kfoldTrainFold.2 ⟨hlt, hmem⟩, hidx⟩)
      · intro hx
        rcases hx with hx | hx <;>
          · obtain ⟨i, -, hgi⟩ := mem_XOfIndices.1 hx
            exact List.get?_mem hgi
  · have hflat : ((kfoldTestFolds k perm).map (XOfIndices u)).flatten =
        perm.filterMap u.get? := by
      have h1 : (kfoldTestFolds k perm).map (XOfIndices u) =
          (kfoldTestFolds k perm).map (List.filterMap u.get?) := rfl
      rw [h1, ← List.filterMap_flatten, kfoldTestFolds_flatten k hk0]
    rw [hflat]
    have h2 := hperm.filterMap u.get?
    rwa [filterMap_get?_range] at h2
  · have hndflat : ((kfoldTestFolds k perm).flatten).Nodup := by
      rw [kfoldTestFolds_flatten k hk0]
      exact hpermnd
    refine List.Pairwise.imp_of_mem ?_ (List.nodup_flatten.1 hndflat).2
    intro t1 t2 h1 h2 hdis x hx1 hx2
    obtain ⟨i, hi, hgi⟩ := mem_XOfIndices.1 hx1
    obtain ⟨j, hj, hgj⟩ := mem_XOfIndices.1 hx2
    have hij : i = j := get?_inj_of_nodup hund hgi hgj
    subst hij
    exact hdis hi hj

/-- C5 (witness): the theorem applied to five dataset-folds over four parent
datasets, two splits, and the shuffle `[2, 0, 3, 1]` of the four parent
indices. -/
theorem c5_cv_partition_witness :
    2 ≤ 2 ∧
    ([2, 0, 3, 1] : List ℕ).Perm
      (List.range (uniqueDatasets (fun d => d) [3, 1, 3, 2, 0]).length) ∧
    ((∀ test ∈ kfoldTestFolds 2 [2, 0, 3, 1],
      (∀ x, ¬ (x ∈ XOfIndices (uniqueDatasets (fun d => d) [3, 1, 3, 2, 0])
          (kfoldTrainFold
            (uniqueDatasets (fun d => d) [3, 1, 3, 2, 0]).length test) ∧
        x ∈ XOfIndices (uniqueDatasets (fun d => d) [3, 1, 3, 2, 0]) test)) ∧
      (∀ x, x ∈ uniqueDatasets (fun d => d) [3, 1, 3, 2, 0] ↔
        (x ∈ XOfIndices (uniqueDatasets (fun d => d) [3, 1, 3, 2, 0])
          (kfoldTrainFold
            (uniqueDatasets (fun d => d) [3, 1, 3, 2, 0]).length test) ∨
        x ∈ XOfIndices (uniqueDatasets (fun d => d) [3, 1, 3, 2, 0]) test))) ∧
    ((kfoldTestFolds 2 [2, 0, 3, 1]).map
        (XOfIndices (uniqueDatasets (fun d => d) [3, 1, 3, 2, 0]))).flatten.Perm
      (uniqueDatasets (fun d => d) [3, 1, 3, 2, 0]) ∧
    List.Pairwise (fun t1 t2 => ∀ x,
      x ∈ XOfIndices (uniqueDatasets (fun d => d) [3, 1, 3, 2, 0]) t1 →
      ¬ x ∈ XOfIndices (uniqueDatasets (fun d => d) [3, 1, 3, 2, 0]) t2)
      (kfoldTestFolds 2 [2, 0, 3, 1]) ∧
    (∀ perm₂ : List ℕ, perm₂ = [2, 0, 3, 1] →
      kfoldTestFolds 2 perm₂ = kfoldTestFolds 2 [2, 0, 3, 1])) :=
  ⟨by decide,
    by rw [uniqueDatasets, (List.mergeSort_perm _ _).length_eq]; decide,
    c5_cv_partition (fun d => d) [3, 1, 3, 2, 0] 2 (by decide) [2, 0, 3, 1]
      (by rw [uniqueDatasets, (List.mergeSort_perm _ _).length_eq]; decide)⟩

/-- C10: neither operation mutates its caller-supplied list argument.  On
the heap model, `select_zeroshot_configs` leaves the pool heap untouched and
the caller's prior-portfolio cell unchanged, writing only the fresh cell
allocated by the deep copy at line 36, whose final value is the pure
forward-selection result; `prune_zeroshot_configs` likewise leaves the
caller's portfolio cell unchanged and its fresh copy (line 104) holds the
pure pruning result. -/
theorem c10_no_mutation (backend : Backend)
    (scorer : List (Option α) → ℚ) (pruneScorer : List β → ℚ) (num : ℤ)
    (t : ℚ) (hp : PyHeap α) (poolPtr : ℕ) (hz : PyHeap (Option α))
    (priorPtr : ℕ) (hprior : priorPtr < hz.cells.length) (hpr : PyHeap β)
    (zsPtr : ℕ) (hzs : zsPtr < hpr.cells.length) :
    (select_zeroshot_configs_heap backend scorer num hp poolPtr hz
        priorPtr).1 = hp ∧
    (select_zeroshot_configs_heap backend scorer num hp poolPtr hz
        priorPtr).2.1.read priorPtr = hz.read priorPtr ∧
    (select_zeroshot_configs_heap backend scorer num hp poolPtr hz
        priorPtr).2.1.read
        (select_zeroshot_configs_heap backend scorer num hp poolPtr hz
          priorPtr).2.2 =
      selectLoop backend scorer (hp.read poolPtr)
        (num - (hz.read priorPtr).length).toNat (hz.read priorPtr) ∧
    (prune_zeroshot_configs_heap pruneScorer t hpr zsPtr).1.read zsPtr =
      hpr.read zsPtr ∧
    (prune_zeroshot_configs_heap pruneScorer t hpr zsPtr).1.read
        (prune_zeroshot_configs_heap pruneScorer t hpr zsPtr).2 =
      prune_zeroshot_configs pruneScorer (hpr.read zsPtr) t := by
  have halloc2 : (hz.alloc (hz.read priorPtr)).2 = hz.cells.length := rfl
  have hne : priorPtr ≠ (hz.alloc (hz.read priorPtr)).2 := by
    rw [halloc2]
    omega
  obtain ⟨hf1, hf2⟩ := selectLoopHeap_frame backend scorer
    (num - (hz.read priorPtr).length).toNat hp poolPtr
    (hz.alloc (hz.read priorPtr)).1 (hz.alloc (hz.read priorPtr)).2
  have hfreshlt : (hz.alloc (hz.read priorPtr)).2 <
      (hz.alloc (hz.read priorPtr)).1.cells.length := by
    rw [halloc2, PyHeap.alloc_length]
    omega
  have hprne : zsPtr ≠ (hpr.alloc (hpr.read zsPtr)).2 := by
    have h2 : (hpr.alloc (hpr.read zsPtr)).2 = hpr.cells.length := rfl
    rw [h2]
    omega
  have hprfreshlt : (hpr.alloc (hpr.read zsPtr)).2 <
      (hpr.alloc (hpr.read zsPtr)).1.cells.length := by
    have h2 : (hpr.alloc (hpr.read zsPtr)).2 = hpr.cells.length := rfl
    rw [h2, PyHeap.alloc_length]
    omega
  refine ⟨hf1, ?_, ?_, ?_, ?_⟩
  · rw [show (select_zeroshot_configs_heap backend scorer num hp poolPtr hz
        priorPtr).2.1 = (selectLoopHeap backend scorer
          (num - (hz.read priorPtr).length).toNat hp poolPtr
          (hz.alloc (hz.read priorPtr)).1
          (hz.alloc (hz.read priorPtr)).2).2 from rfl]
    rw [hf2 priorPtr hne]
    exact PyHeap.read_alloc_old hz (hz.read priorPtr) hprior
  · rw [show (select_zeroshot_configs_heap backend scorer num hp poolPtr hz
        priorPtr).2.1 = (selectLoopHeap backend scorer
          (num - (hz.read priorPtr).length).toNat hp poolPtr
          (hz.alloc (hz.read priorPtr)).1
          (hz.alloc (hz.read priorPtr)).2).2 from rfl]
    rw [show (select_zeroshot_configs_heap backend scorer num hp poolPtr hz
        priorPtr).2.2 = (hz.alloc (hz.read priorPtr)).2 from rfl]
    rw [selectLoopHeap_read backend scorer _ hp poolPtr _ _ hfreshlt]
    rw [PyHeap.read_alloc_fresh]
  · rw [show (prune_zeroshot_configs_heap pruneScorer t hpr zsPtr).1 =
        pruneLoopHeap pruneScorer t ((hpr.read zsPtr).length + 1)
          (hpr.alloc (hpr.read zsPtr)).1 (hpr.alloc (hpr.read zsPtr)).2
          (pruneScorer (hpr.read zsPtr)) from rfl]
    rw [pruneLoopHeap_frame pruneScorer t _ _ _ _ zsPtr hprne]
    exact PyHeap.read_alloc_old hpr (hpr.read zsPtr) hzs
  · rw [show (prune_zeroshot_configs_heap pruneScorer t hpr zsPtr).1 =
        pruneLoopHeap pruneScorer t ((hpr.read zsPtr).length + 1)
          (hpr.alloc (hpr.read zsPtr)).1 (hpr.alloc (hpr.read zsPtr)).2
          (pruneScorer (hpr.read zsPtr)) from rfl]
    rw [show (prune_zeroshot_configs_heap pruneScorer t hpr zsPtr).2 =
        (hpr.alloc (hpr.read zsPtr)).2 from rfl]
    rw [pruneLoopHeap_read pruneScorer t _ _ _ _ hprfreshlt]
    rw [PyHeap.read_alloc_fresh]
    rfl

/-- C10 (witness): the theorem applied to concrete one-cell heaps: prior
portfolio `[some 1]`, pool `[1, 2]`, pruned portfolio `[4, 5]`, with
constant-zero scorers. -/
theorem c10_no_mutation_witness :
    0 < (PyHeap.mk [[some 1]] : PyHeap (Option ℕ)).cells.length ∧
    0 < (PyHeap.mk [[4, 5]] : PyHeap ℕ).cells.length ∧
    ((select_zeroshot_configs_heap Backend.ray (fun _ => (0 : ℚ)) 1
        (PyHeap.mk [[1, 2]]) 0 (PyHeap.mk [[some 1]]) 0).1 =
      PyHeap.mk [[1, 2]] ∧
    (select_zeroshot_configs_heap Backend.ray (fun _ => (0 : ℚ)) 1
        (PyHeap.mk [[1, 2]]) 0 (PyHeap.mk [[some 1]]) 0).2.1.read 0 =
      (PyHeap.mk [[some 1]] : PyHeap (Option ℕ)).read 0 ∧
    (select_zeroshot_configs_heap Backend.ray (fun _ => (0 : ℚ)) 1
        (PyHeap.mk [[1, 2]]) 0 (PyHeap.mk [[some 1]]) 0).2.1.read
        (select_zeroshot_configs_heap Backend.ray (fun _ => (0 : ℚ)) 1
          (PyHeap.mk [[1, 2]]) 0 (PyHeap.mk [[some 1]]) 0).2.2 =
      selectLoop Backend.ray (fun _ => (0 : ℚ))
        ((PyHeap.mk [[1, 2]] : PyHeap ℕ).read 0)
        ((1 : ℤ) -
          ((PyHeap.mk [[some 1]] : PyHeap (Option ℕ)).read 0).length).toNat
        ((PyHeap.mk [[some 1]] : PyHeap (Option ℕ)).read 0) ∧
    (prune_zeroshot_configs_heap (fun _ => (0 : ℚ)) 0
        (PyHeap.mk [[4, 5]]) 0).1.read 0 =
      (PyHeap.mk [[4, 5]] : PyHeap ℕ).read 0 ∧
    (prune_zeroshot_configs_heap (fun _ => (0 : ℚ)) 0
        (PyHeap.mk [[4, 5]]) 0).1.read
        (prune_zeroshot_configs_heap (fun _ => (0 : ℚ)) 0
          (PyHeap.mk [[4, 5]]) 0).2 =
      prune_zeroshot_configs (fun _ => (0 : ℚ))
        ((PyHeap.mk [[4, 5]] : PyHeap ℕ).read 0) 0) :=
  ⟨by decide, by decide,
    c10_no_mutation Backend.ray (fun _ => (0 : ℚ)) (fun _ => (0 : ℚ)) 1 0
      (PyHeap.mk [[1, 2]]) 0 (PyHeap.mk [[some 1]]) 0 (by decide)
      (PyHeap.mk [[4, 5]]) 0 (by decide)⟩

end AGZeroshot
